import Mathlib

/-!
Verification of the mini-tip feed-ingestion core: a shallow embedding of
`db.py` (indicator store with merge-on-conflict upsert), `feeds.py` (feed
parsers and the URLhaus fetcher with its HTML-block-page check and
line-oriented fallback), and `app.py` (per-family ingestion jobs with
FeedRun bookkeeping), together with theorems about the claimed behaviour.

Modelling conventions:
* HTTP responses are parameters of type `Except String String`
  (transport failure or response body), since fetching is I/O.
* The current-time helper `_utc_now_iso` is a `now : String` parameter.
* Python dicts passed to `upsert_indicator` become a structure whose
  optional keys (those read with `ind.get(...)`) are `Option` fields,
  `none` meaning the key is absent.
* SQLite tables become Lean lists; the CHECK constraints of the
  `indicators` table make the upsert fallible (`Except String`).
-/

namespace MiniTip

/-- Python `a or b` on strings: the empty string is falsy. -/
def pyOr (a b : String) : String := if a = "" then b else a

/-- The whitespace characters relevant to these feeds (ASCII, the same set
`Char.isWhitespace` uses).  The string operations below are implemented on
the character list of a `String` so that they compute by kernel reduction;
they model the Python `str` methods used in feeds.py. -/
def isWs (c : Char) : Bool := c = ' ' || c = '\t' || c = '\n' || c = '\r'

/-- Python `str.lstrip()`. -/
def strTrimLeft (s : String) : String := ⟨s.data.dropWhile isWs⟩

/-- Python `str.strip()`. -/
def strTrim (s : String) : String :=
  ⟨(((s.data.dropWhile isWs).reverse).dropWhile isWs).reverse⟩

/-- Python `str.lower()` (ASCII case mapping, which covers these feeds). -/
def strLower (s : String) : String := ⟨s.data.map Char.toLower⟩

/-- Python `str.startswith(pre)`. -/
def strStartsWith (s pre : String) : Bool := pre.data.isPrefixOf s.data

/-- Python `c in s` for a single character. -/
def strContains (s : String) (c : Char) : Bool := s.data.contains c

/-- Split on a separator character; the helper carries the current field
in reverse. -/
def splitOnCharAux (sep : Char) : List Char → List Char → List String
  | [], cur => [⟨cur.reverse⟩]
  | c :: cs, cur =>
    if c = sep then ⟨cur.reverse⟩ :: splitOnCharAux sep cs []
    else splitOnCharAux sep cs (c :: cur)

/-- Split a string on every occurrence of a separator character. -/
def strSplitOnChar (sep : Char) (s : String) : List String :=
  splitOnCharAux sep s.data []

/-- Python `str.splitlines` restricted to LF separators (the feeds under
consideration are LF-delimited; a stray CR is whitespace and is removed by
the `strip` every parser applies).  Unlike `String.splitOn "\n"`, a trailing
newline does not produce a final empty line. -/
def splitLines (s : String) : List String :=
  if s = "" then []
  else
    let parts := strSplitOnChar '\n' s
    if parts.getLast? = some "" then parts.dropLast else parts

/-- First whitespace-delimited token of a string: Python `s.split()[0]`
(total here, returning `""` on all-whitespace input; the caller only applies
it to stripped non-empty strings, where Python's indexing succeeds). -/
def firstToken (s : String) : String :=
  ⟨(s.data.dropWhile isWs).takeWhile fun c => ¬ isWs c⟩

/-- An indicator dict as handed to `upsert_indicator` (db.py, docstring at
lines 53-63).  `type`, `value` and `source` are accessed with `ind[...]`
(required); the rest are read with `ind.get(...)` and may be absent. -/
structure IndDict where
  type : String
  value : String
  source : String
  first_seen : Option String := none
  last_seen : Option String := none
  tags : Option String := none
  confidence : Option Int := none
  status : Option String := none
deriving Repr, DecidableEq

/-- A stored row of the `indicators` table (db.py lines 19-32), minus the
surrogate `id`.  `first_seen` and `last_seen` are nullable columns. -/
structure Record where
  type : String
  value : String
  source : String
  first_seen : Option String
  last_seen : Option String
  tags : String
  confidence : Int
  status : String
deriving Repr, DecidableEq

/-- The CHECK(type IN ('url','ip','domain','cidr')) enumeration. -/
def validTypes : List String := ["url", "ip", "domain", "cidr"]

/-- Does record `r` collide with key `(v, s)` on the UNIQUE(value, source)
constraint? -/
def keyMatches (v s : String) (r : Record) : Bool :=
  r.value == v && r.source == s

/-- The `DO UPDATE SET` clause of db.py lines 70-74: overwrite `last_seen`,
`tags`, `status` and `confidence` with the excluded (incoming) values,
applying the `ind.get` defaults `tags -> ""`, `confidence -> 50`,
`status -> "active"`; every other column is untouched. -/
def mergeRecord (ind : IndDict) (r : Record) : Record :=
  { r with
    last_seen := ind.last_seen
    tags := ind.tags.getD ""
    status := ind.status.getD "active"
    confidence := ind.confidence.getD 50 }

/-- The VALUES row of db.py lines 68-69 and 75-79: the freshly inserted
record, with the same `ind.get` defaults. -/
def insertRecord (ind : IndDict) : Record :=
  { type := ind.type
    value := ind.value
    source := ind.source
    first_seen := ind.first_seen
    last_seen := ind.last_seen
    tags := ind.tags.getD ""
    confidence := ind.confidence.getD 50
    status := ind.status.getD "active" }

/-- db.py `upsert_indicator` (lines 52-81):
`INSERT INTO indicators ... ON CONFLICT(value, source) DO UPDATE SET
last_seen=excluded.last_seen, tags=excluded.tags, status=excluded.status,
confidence=excluded.confidence`.
SQLite evaluates the CHECK constraints of the candidate row before upsert
conflict resolution, so an invalid `type` or an out-of-range `confidence`
aborts the statement on either branch. -/
def upsert_indicator (store : List Record) (ind : IndDict) :
    Except String (List Record) :=
  if ¬ validTypes.contains ind.type then
    .error "CHECK constraint failed: type"
  else if ¬ (0 ≤ ind.confidence.getD 50 ∧ ind.confidence.getD 50 ≤ 100) then
    .error "CHECK constraint failed: confidence"
  else if store.any (keyMatches ind.value ind.source) then
    .ok (store.map fun r =>
      if keyMatches ind.value ind.source r then mergeRecord ind r else r)
  else
    .ok (store ++ [insertRecord ind])

/-- A sequence of `upsert_indicator` calls, stopping at the first failure. -/
def upsertAll : List Record → List IndDict → Except String (List Record)
  | store, [] => .ok store
  | store, ind :: rest =>
    match upsert_indicator store ind with
    | .error e => .error e
    | .ok store2 => upsertAll store2 rest

/-! ## feeds.py: parsers -/

/-- The indicator dict built for one Spamhaus drop-list line
(feeds.py lines 158-167). -/
def spamhausInd (cidr source_name now : String) : IndDict :=
  { type := "cidr", value := cidr, source := source_name,
    first_seen := some now, last_seen := some now,
    tags := some "drop-list", confidence := some 70,
    status := some "active" }

/-- feeds.py `_parse_spamhaus_text` (lines 142-168): per line, strip; skip
blank lines and lines starting with `;`; take the first whitespace token as
the CIDR; skip it when it contains no `/`; otherwise append an indicator.
The `for`-loop appending to a list is a left fold. -/
def _parse_spamhaus_text (text source_name now : String) : List IndDict :=
  List.foldl
    (fun acc ln =>
      let raw := strTrim ln
      if raw = "" then acc
      else if strStartsWith raw ";" then acc
      else
        let cidr := firstToken raw
        if ¬ strContains cidr '/' then acc
        else acc ++ [spamhausInd cidr source_name now])
    [] (splitLines text)

/-- The per-line rule the spec states for the drop-list parser: a line
qualifies exactly when, after trimming, it is non-empty, does not start
with the comment marker `;`, and its first whitespace-delimited token
contains a `/`; a qualifying line yields one indicator whose value is that
token. -/
def spamhausLineSpec (source_name now ln : String) : Option IndDict :=
  if strTrim ln ≠ "" ∧ ¬ strStartsWith (strTrim ln) ";" ∧
      strContains (firstToken (strTrim ln)) '/' then
    some (spamhausInd (firstToken (strTrim ln)) source_name now)
  else none

/-- The indicator dict built for one URLhaus text-feed line
(feeds.py lines 97-106). -/
def urlhausTextInd (s now : String) : IndDict :=
  { type := "url", value := s, source := "urlhaus",
    first_seen := some now, last_seen := some now,
    tags := some "", confidence := some 80, status := some "active" }

/-- feeds.py `_parse_urlhaus_text` (lines 86-107): one URL per line, `#`
lines are comments, a line qualifies only when it begins with `http://` or
`https://`. -/
def _parse_urlhaus_text (text now : String) : List IndDict :=
  List.foldl
    (fun acc ln =>
      let s := strTrim ln
      if s = "" then acc
      else if strStartsWith s "#" then acc
      else if strStartsWith s "http://" || strStartsWith s "https://" then
        acc ++ [urlhausTextInd s now]
      else acc)
    [] (splitLines text)

/-- The per-line rule of the URLhaus text feed, stated as one condition: a
trimmed line qualifies when it is non-empty, is not a `#` comment, and
begins with `http://` or `https://`. -/
def urlhausTextLineSpec (now ln : String) : Option IndDict :=
  if strTrim ln ≠ "" ∧ ¬ strStartsWith (strTrim ln) "#" ∧
      (strStartsWith (strTrim ln) "http://" ∨
        strStartsWith (strTrim ln) "https://") then
    some (urlhausTextInd (strTrim ln) now)
  else none

/-- One CSV row split into fields: a model of the Python `csv` module's
default dialect for the rows these feeds produce — fields separated by `,`,
a field may be wrapped in double quotes and then contains commas verbatim
(escaped doubled quotes inside a quoted field are not modelled). -/
def splitCSVRow (line : String) : List String :=
  let fin := List.foldl
    (fun (st : Bool × String × List String) c =>
      if st.1 then
        if c = '"' then (false, st.2.1, st.2.2)
        else (true, st.2.1.push c, st.2.2)
      else if c = '"' then (true, st.2.1, st.2.2)
      else if c = ',' then (false, "", st.2.2 ++ [st.2.1])
      else (false, st.2.1.push c, st.2.2))
    (false, "", []) line.toList
  fin.2.2 ++ [fin.2.1]

/-- Lookup in the normalized row dict `low` with default `""`.  The Python
dict comprehension lets a later duplicate key overwrite an earlier one, so
the lookup takes the last matching entry; `low.get(k)` returning `None` and
the subsequent `or` chains make the absent case behave as `""` (every stored
value is a stripped string, so only `""` is falsy). -/
def lowGet (low : List (String × String)) (k : String) : String :=
  (((low.reverse.find? fun kv => kv.1 = k).map Prod.snd).getD "")

/-- The key/value normalization of feeds.py line 63:
`{ (k or "").strip().lower(): (v or "").strip() for k, v in row.items() }`. -/
def normalizeRow (row : List (String × String)) : List (String × String) :=
  row.map fun kv => (strLower (strTrim kv.1), strTrim kv.2)

/-- The value of a row's liveness field, feeds.py line 70:
`low.get("url_status") or low.get("status") or ""` (before lowercasing). -/
def livenessValue (row : List (String × String)) : String :=
  pyOr (lowGet (normalizeRow row) "url_status")
    (lowGet (normalizeRow row) "status")

/-- The effective timestamp of a CSV row, feeds.py line 69:
`low.get("dateadded") or low.get("firstseen") or _utc_now_iso()`. -/
def urlhausDateadded (low : List (String × String)) (now : String) : String :=
  pyOr (lowGet low "dateadded") (pyOr (lowGet low "firstseen") now)

/-- The status of a CSV row, feeds.py lines 70-71: `"inactive"` when the
liveness field (`url_status`, else `status`) lowercases to `"offline"`,
otherwise `"active"`. -/
def urlhausStatus (low : List (String × String)) : String :=
  if strLower (pyOr (lowGet low "url_status") (lowGet low "status"))
      = "offline" then "inactive"
  else "active"

/-- The per-row body of feeds.py `_parse_urlhaus_csv` (lines 61-82): rows
with an empty/absent `url` are skipped; the effective timestamp is
`dateadded`, else `firstseen`, else the current time; the row maps to
`status = "inactive"` exactly when the liveness field lowercases to
`"offline"` (the Python locals `low`, `url`, `dateadded`, `status` are the
corresponding subterms). -/
def urlhausRowToInd (row : List (String × String)) (now : String) :
    Option IndDict :=
  if lowGet (normalizeRow row) "url" = "" then none
  else
    some { type := "url", value := lowGet (normalizeRow row) "url",
           source := "urlhaus",
           first_seen := some (urlhausDateadded (normalizeRow row) now),
           last_seen := some (urlhausDateadded (normalizeRow row) now),
           tags := some (lowGet (normalizeRow row) "tags"),
           confidence := some 80,
           status := some (urlhausStatus (normalizeRow row)) }

/-- feeds.py `_parse_urlhaus_csv` (lines 48-83): drop blank lines and lines
whose first non-whitespace character is `#`; the first remaining line is the
header; each later line is zipped with the header into a row dict
(`csv.DictReader`; a short row's missing fields read as empty, matching
`restval=None` flowing through `(v or "")`). -/
def _parse_urlhaus_csv (text now : String) : List IndDict :=
  match (splitLines text).filter
      (fun ln => strTrim ln ≠ "" && ¬ strStartsWith (strTrimLeft ln) "#") with
  | [] => []
  | header :: dataRows =>
    dataRows.filterMap fun ln =>
      urlhausRowToInd
        ((splitCSVRow header).zip
          (splitCSVRow ln ++ List.replicate (splitCSVRow header).length ""))
        now

/-! ## feeds.py: URLhaus fetcher -/

/-- The error taxonomy a fetch can surface: a transport failure
(`requests` exception / `raise_for_status`) or a format failure (the
explicit `RuntimeError` for an HTML block page). -/
inductive FetchError where
  | transport (msg : String)
  | format (msg : String)
deriving Repr, DecidableEq

/-- feeds.py lines 125-126: is the payload recognizably an HTML document
(`r.text.lstrip().lower()` begins with `<!doctype` or `<html`)? -/
def isHtmlPayload (t : String) : Bool :=
  let first := strLower (strTrimLeft t)
  strStartsWith first "<!doctype" || strStartsWith first "<html"

/-- feeds.py `fetch_urlhaus_recent` (lines 110-136).  The two HTTP responses
are parameters: `csvResp` for the tabular endpoint, `txtResp` for the
line-oriented endpoint (each a transport failure or a body).  The second
component of the result records whether the fallback endpoint was
requested. -/
def fetch_urlhaus_recent (csvResp txtResp : Except String String)
    (now : String) : Except FetchError (List IndDict) × Bool :=
  match csvResp with
  | .error e => (.error (.transport e), false)
  | .ok body =>
    if isHtmlPayload body then
      (.error (.format "URLhaus returned HTML (possible block page)."), false)
    else
      let indicators := _parse_urlhaus_csv body now
      if indicators.isEmpty then
        match txtResp with
        | .error e => (.error (.transport e), true)
        | .ok body2 => (.ok (_parse_urlhaus_text body2 now), true)
      else (.ok indicators, false)

/-! ## app.py: ingestion jobs and FeedRun bookkeeping -/

/-- A row of the `feed_runs` table (db.py lines 37-47), minus the surrogate
`id` and the timestamp columns; `finished` records whether `finished_at`
has been set. -/
structure FeedRunRec where
  source : String
  items_ingested : Nat
  status : String
  error_text : Option String
  finished : Bool
deriving Repr, DecidableEq

/-- The persistent state the jobs touch: the two tables. -/
structure DB where
  indicators : List Record
  feed_runs : List FeedRunRec
deriving Repr, DecidableEq

/-- db.py `record_feed_run_start` (lines 83-94): insert a `running` row and
return its id (here: its index). -/
def record_feed_run_start (source : String) (db : DB) : DB × Nat :=
  ({ db with feed_runs :=
      db.feed_runs ++ [⟨source, 0, "running", none, false⟩] },
   db.feed_runs.length)

/-- Update the element at index `i` in place (identity out of range). -/
def listModify {α : Type} (l : List α) (i : Nat) (f : α → α) : List α :=
  match l, i with
  | [], _ => []
  | x :: xs, 0 => f x :: xs
  | x :: xs, i + 1 => x :: listModify xs i f

/-- db.py `record_feed_run_end` (lines 96-106): set `finished_at`,
`items_ingested`, `status` and `error_text` on the row with the given id. -/
def record_feed_run_end (run_id : Nat) (items : Nat) (status : String)
    (error_text : Option String) (db : DB) : DB :=
  { db with feed_runs := listModify db.feed_runs run_id fun r =>
      { r with items_ingested := items, status := status,
               error_text := error_text, finished := true } }

/-- The `for ind in indicators: upsert_indicator(ind); count += 1` loop of
app.py (lines 23-25 / 37-39), stopping at the first storage failure.
Returns the store after the successful upserts, the number that succeeded,
and the failure message if one occurred. -/
def ingestLoop : List Record → Nat → List IndDict →
    List Record × Nat × Option String
  | store, count, [] => (store, count, none)
  | store, count, ind :: rest =>
    match upsert_indicator store ind with
    | .error e => (store, count, some e)
    | .ok store2 => ingestLoop store2 (count + 1) rest

/-- app.py `run_urlhaus_job` / `run_spamhaus_job` (lines 18-30 / 32-44),
which differ only in the source name and which fetcher they call: start a
FeedRun, fetch, upsert each indicator counting successes, and finalize as
`success`, or as `error` with the partial count and the failure text.  The
fetch outcome is a parameter (a transport/format failure message or a list
of indicators). -/
def run_feed_job (source : String) (fetch : Except String (List IndDict))
    (db : DB) : DB :=
  let started := record_feed_run_start source db
  let db1 := started.1
  let run_id := started.2
  match fetch with
  | .error e => record_feed_run_end run_id 0 "error" (some e) db1
  | .ok inds =>
    let looped := ingestLoop db1.indicators 0 inds
    let db2 := { db1 with indicators := looped.1 }
    match looped.2.2 with
    | none => record_feed_run_end run_id looped.2.1 "success" none db2
    | some e => record_feed_run_end run_id looped.2.1 "error" (some e) db2

/-- app.py `run_urlhaus_job` with the fetch outcome abstracted. -/
def run_urlhaus_job (fetch : Except String (List IndDict)) (db : DB) : DB :=
  run_feed_job "urlhaus" fetch db

/-- app.py `run_spamhaus_job` with the fetch outcome abstracted. -/
def run_spamhaus_job (fetch : Except String (List IndDict)) (db : DB) : DB :=
  run_feed_job "spamhaus" fetch db

/-- app.py `run_all_feeds` (lines 46-48): the URLhaus job, then the
Spamhaus job. -/
def run_all_feeds (fetchU fetchS : Except String (List IndDict))
    (db : DB) : DB :=
  run_spamhaus_job fetchS (run_urlhaus_job fetchU db)

/-! ## Concrete sample data used by the witnesses -/

/-- A stored record for `http://a/` from urlhaus, first seen at `T0`. -/
def sampleStored : Record :=
  { type := "url", value := "http://a/", source := "urlhaus",
    first_seen := some "T0", last_seen := some "T0", tags := "old",
    confidence := 80, status := "active" }

/-- A re-observation of the same (value, source) pair at `T1`. -/
def sampleReobs : IndDict :=
  { type := "url", value := "http://a/", source := "urlhaus",
    first_seen := some "T1", last_seen := some "T1", tags := some "new",
    confidence := some 90, status := some "inactive" }

/-- `sampleStored` after merging `sampleReobs` into it. -/
def sampleMerged : Record :=
  { type := "url", value := "http://a/", source := "urlhaus",
    first_seen := some "T0", last_seen := some "T1", tags := "new",
    confidence := 90, status := "inactive" }

/-- An indicator dict carrying only the required keys. -/
def sampleMinimal : IndDict :=
  { type := "url", value := "http://m/", source := "urlhaus" }

/-! ## Lemmas about the store -/

/-- When the CHECK constraints hold, `upsert_indicator` reduces to its two
conflict branches. -/
theorem upsert_indicator_eq (store : List Record) (ind : IndDict)
    (ht : validTypes.contains ind.type = true)
    (hc : 0 ≤ ind.confidence.getD 50 ∧ ind.confidence.getD 50 ≤ 100) :
    upsert_indicator store ind =
      if store.any (keyMatches ind.value ind.source) then
        .ok (store.map fun r =>
          if keyMatches ind.value ind.source r then mergeRecord ind r else r)
      else .ok (store ++ [insertRecord ind]) := by
  unfold upsert_indicator
  rw [if_neg (by simp [ht, List.mem_of_elem_eq_true ht]),
    if_neg (by simp [hc.1, hc.2])]

/-- A successful upsert is one of the two conflict branches. -/
theorem upsert_ok_cases (store : List Record) (ind : IndDict)
    (store2 : List Record) (h : upsert_indicator store ind = .ok store2) :
    (store.any (keyMatches ind.value ind.source) = true ∧
      store2 = store.map fun r =>
        if keyMatches ind.value ind.source r then mergeRecord ind r else r) ∨
    (store.any (keyMatches ind.value ind.source) = false ∧
      store2 = store ++ [insertRecord ind]) := by
  unfold upsert_indicator at h
  split at h
  · exact absurd h (by simp)
  · split at h
    · exact absurd h (by simp)
    · split at h
      · exact Or.inl ⟨by assumption, (Except.ok.injEq _ _).mp h |>.symm⟩
      · refine Or.inr ⟨?_, (Except.ok.injEq _ _).mp h |>.symm⟩
        simp only [Bool.not_eq_true] at *
        assumption

/-- The merge clause never touches `first_seen`, `type`, `source`,
`value`. -/
theorem mergeRecord_frame (ind : IndDict) (r : Record) :
    (mergeRecord ind r).first_seen = r.first_seen ∧
    (mergeRecord ind r).type = r.type ∧
    (mergeRecord ind r).source = r.source ∧
    (mergeRecord ind r).value = r.value :=
  ⟨rfl, rfl, rfl, rfl⟩

/-- Frame property of a single successful upsert: every record already in
the store keeps its position and its `first_seen`, `type`, `source` and
`value`. -/
theorem upsert_frame (store : List Record) (ind : IndDict)
    (store2 : List Record) (h : upsert_indicator store ind = .ok store2) :
    ∀ i : Nat, ∀ r : Record, store[i]? = some r →
      ∃ r2 : Record, store2[i]? = some r2 ∧
        r2.first_seen = r.first_seen ∧ r2.type = r.type ∧
        r2.source = r.source ∧ r2.value = r.value := by
  intro i r hi
  rcases upsert_ok_cases store ind store2 h with ⟨_, rfl⟩ | ⟨_, rfl⟩
  · refine ⟨if keyMatches ind.value ind.source r then mergeRecord ind r
      else r, ?_, ?_⟩
    · rw [List.getElem?_map, hi]; rfl
    · split
      · exact (mergeRecord_frame ind r).1.symm ▸
          ⟨rfl, rfl, rfl, rfl⟩
      · exact ⟨rfl, rfl, rfl, rfl⟩
  · refine ⟨r, ?_, rfl, rfl, rfl, rfl⟩
    obtain ⟨hlt, -⟩ := List.getElem?_eq_some.mp hi
    rw [List.getElem?_append_left hlt]
    exact hi

/-- Frame property of a successful run of upserts. -/
theorem upsertAll_frame (inds : List IndDict) :
    ∀ store store2 : List Record, upsertAll store inds = .ok store2 →
      ∀ i : Nat, ∀ r : Record, store[i]? = some r →
        ∃ r2 : Record, store2[i]? = some r2 ∧
          r2.first_seen = r.first_seen ∧ r2.type = r.type ∧
          r2.source = r.source ∧ r2.value = r.value := by
  induction inds with
  | nil =>
    intro store store2 h i r hi
    cases h
    exact ⟨r, hi, rfl, rfl, rfl, rfl⟩
  | cons ind rest ih =>
    intro store store2 h i r hi
    unfold upsertAll at h
    cases hup : upsert_indicator store ind with
    | error e => rw [hup] at h; cases h
    | ok store1 =>
      rw [hup] at h
      obtain ⟨r1, hr1, hfs, hty, hsrc, hval⟩ :=
        upsert_frame store ind store1 hup i r hi
      obtain ⟨r2, hr2, hfs2, hty2, hsrc2, hval2⟩ :=
        ih store1 store2 h i r1 hr1
      exact ⟨r2, hr2, hfs2.trans hfs, hty2.trans hty,
        hsrc2.trans hsrc, hval2.trans hval⟩

/-! ## Claim theorems: the store (C1, C2, C10) -/

/-- C1: for an indicator whose (value, source) pair already has a stored
record, `upsert_indicator` updates every colliding record's `last_seen`,
`tags`, `status` and `confidence` to the incoming values (with the
documented `ind.get` defaults), keeping the store's length; for a pair with
no stored record it appends one new record carrying the given
`first_seen`. -/
theorem claim_C1 (store : List Record) (ind : IndDict)
    (ht : validTypes.contains ind.type = true)
    (hc : 0 ≤ ind.confidence.getD 50 ∧ ind.confidence.getD 50 ≤ 100) :
    ((∃ r ∈ store, keyMatches ind.value ind.source r) →
      ∃ store2 : List Record, upsert_indicator store ind = .ok store2 ∧
        store2.length = store.length ∧
        (∀ i : Nat, ∀ r : Record, store[i]? = some r →
          keyMatches ind.value ind.source r = true →
          ∃ r2 : Record, store2[i]? = some r2 ∧
            r2.last_seen = ind.last_seen ∧ r2.tags = ind.tags.getD "" ∧
            r2.status = ind.status.getD "active" ∧
            r2.confidence = ind.confidence.getD 50)) ∧
    ((∀ r ∈ store, ¬ keyMatches ind.value ind.source r) →
      ∃ newRec : Record,
        upsert_indicator store ind = .ok (store ++ [newRec]) ∧
        newRec.first_seen = ind.first_seen ∧ newRec.type = ind.type ∧
        newRec.value = ind.value ∧ newRec.source = ind.source) := by
  constructor
  · intro hex
    have hany : store.any (keyMatches ind.value ind.source) = true :=
      List.any_eq_true.mpr (by simpa using hex)
    refine ⟨_, by rw [upsert_indicator_eq store ind ht hc, if_pos hany],
      List.length_map .., ?_⟩
    intro i r hi hk
    refine ⟨mergeRecord ind r, ?_, rfl, rfl, rfl, rfl⟩
    rw [List.getElem?_map, hi]
    simp [hk]
  · intro hnone
    have hany : store.any (keyMatches ind.value ind.source) = false := by
      simp only [List.any_eq_false]
      intro r hr
      simpa using hnone r hr
    exact ⟨insertRecord ind,
      by rw [upsert_indicator_eq store ind ht hc, if_neg (by simp [hany])],
      rfl, rfl, rfl, rfl⟩

/-- Witness for C1 at a concrete store and indicator (conflict branch). -/
theorem claim_C1_witness :
    validTypes.contains sampleReobs.type = true ∧
    ((∃ r ∈ [sampleStored],
        keyMatches sampleReobs.value sampleReobs.source r) →
      ∃ store2 : List Record,
        upsert_indicator [sampleStored] sampleReobs = .ok store2 ∧
        store2.length = [sampleStored].length ∧
        (∀ i : Nat, ∀ r : Record, [sampleStored][i]? = some r →
          keyMatches sampleReobs.value sampleReobs.source r = true →
          ∃ r2 : Record, store2[i]? = some r2 ∧
            r2.last_seen = sampleReobs.last_seen ∧
            r2.tags = sampleReobs.tags.getD "" ∧
            r2.status = sampleReobs.status.getD "active" ∧
            r2.confidence = sampleReobs.confidence.getD 50)) :=
  ⟨by decide,
    (claim_C1 [sampleStored] sampleReobs (by decide) (by decide)).1⟩

/-- C2: a successful sequence of upserts leaves every pre-existing record's
`first_seen`, `type`, `source` and `value` unchanged (at its position); in
particular `first_seen` keeps the value given at the first insert. -/
theorem claim_C2 (store : List Record) (inds : List IndDict)
    (store2 : List Record) (h : upsertAll store inds = .ok store2) :
    ∀ i : Nat, ∀ r : Record, store[i]? = some r →
      ∃ r2 : Record, store2[i]? = some r2 ∧
        r2.first_seen = r.first_seen ∧ r2.type = r.type ∧
        r2.source = r.source ∧ r2.value = r.value :=
  upsertAll_frame inds store store2 h

/-- Witness for C2: one stored record survives a later merge of the same
(value, source) pair with its original `first_seen`. -/
theorem claim_C2_witness :
    upsertAll [sampleStored] [sampleReobs] = .ok [sampleMerged] ∧
    (∃ r2 : Record, [sampleMerged][0]? = some r2 ∧
      r2.first_seen = sampleStored.first_seen ∧
      r2.type = sampleStored.type ∧ r2.source = sampleStored.source ∧
      r2.value = sampleStored.value) :=
  ⟨by rfl,
    claim_C2 [sampleStored] [sampleReobs] [sampleMerged] (by rfl)
      0 sampleStored rfl⟩

/-! ## Lemmas about the parsers -/

/-- A fold whose step either keeps the accumulator or appends one element
is a `filterMap`. -/
theorem foldl_append_filterMap {α β : Type} (f : List β → α → List β)
    (g : α → Option β) (hf : ∀ acc x, f acc x = acc ++ (g x).toList) :
    ∀ (l : List α) (acc : List β),
      List.foldl f acc l = acc ++ l.filterMap g := by
  intro l
  induction l with
  | nil => intro acc; simp
  | cons x xs ih =>
    intro acc
    rw [List.foldl_cons, hf, List.filterMap_cons]
    cases hx : g x with
    | none => simp [ih]
    | some b => rw [ih]; simp


/-- The Spamhaus parser is exactly the spec's per-line filter. -/
theorem parse_spamhaus_eq_filterMap (text source_name now : String) :
    _parse_spamhaus_text text source_name now =
      (splitLines text).filterMap (spamhausLineSpec source_name now) := by
  unfold _parse_spamhaus_text
  rw [foldl_append_filterMap _ (spamhausLineSpec source_name now) ?_
    (splitLines text) []]
  · simp
  · intro acc ln
    by_cases h1 : strTrim ln = "" <;>
      by_cases h2 : strStartsWith (strTrim ln) ";" = true <;>
      by_cases h3 : strContains (firstToken (strTrim ln)) '/' = true <;>
      simp [spamhausLineSpec, h1, h2, h3]

/-- The URLhaus text-feed parser is exactly its per-line filter. -/
theorem parse_urlhaus_text_eq_filterMap (text now : String) :
    _parse_urlhaus_text text now =
      (splitLines text).filterMap (urlhausTextLineSpec now) := by
  unfold _parse_urlhaus_text
  rw [foldl_append_filterMap _ (urlhausTextLineSpec now) ?_
    (splitLines text) []]
  · simp
  · intro acc ln
    by_cases h1 : strTrim ln = "" <;>
      by_cases h2 : strStartsWith (strTrim ln) "#" = true <;>
      by_cases h3 : strStartsWith (strTrim ln) "http://" = true <;>
      by_cases h4 : strStartsWith (strTrim ln) "https://" = true <;>
      simp [urlhausTextLineSpec, h1, h2, h3, h4]

/-- Whatever the CSV row parser emits carries confidence 80, type `url`
and source `urlhaus`. -/
theorem urlhausRowToInd_fields (row : List (String × String)) (now : String)
    (ind : IndDict) (h : urlhausRowToInd row now = some ind) :
    ind.confidence = some 80 ∧ ind.type = "url" ∧
    ind.source = "urlhaus" := by
  unfold urlhausRowToInd at h
  split at h
  · cases h
  · cases h
    exact ⟨rfl, rfl, rfl⟩

/-- Every indicator the tabular parser emits comes from some row dict. -/
theorem parse_urlhaus_csv_mem (txt now : String) (ind : IndDict)
    (h : ind ∈ _parse_urlhaus_csv txt now) :
    ∃ row : List (String × String), urlhausRowToInd row now = some ind := by
  unfold _parse_urlhaus_csv at h
  split at h
  · cases h
  · obtain ⟨ln, -, heq⟩ := List.mem_filterMap.mp h
    exact ⟨_, heq⟩

/-- C10: an indicator dict carrying only the required keys `type`, `value`
and `source` upserts successfully, and (when its pair is new) is stored
with the defaults `confidence = 50`, `status = "active"`, `tags = ""` and
null `first_seen` / `last_seen`; no parser of either feed family ever
produces that default confidence — they emit the constants 70 and 80. -/
theorem claim_C10 (t v s : String) (store : List Record)
    (ht : validTypes.contains t = true) :
    (∃ store2 : List Record,
      upsert_indicator store { type := t, value := v, source := s } =
        .ok store2) ∧
    (store.any (keyMatches v s) = false →
      upsert_indicator store { type := t, value := v, source := s } =
        .ok (store ++
          [{ type := t, value := v, source := s, first_seen := none,
             last_seen := none, tags := "", confidence := 50,
             status := "active" }])) ∧
    (∀ txt src now : String, ∀ ind ∈ _parse_spamhaus_text txt src now,
      ind.confidence = some 70) ∧
    (∀ txt now : String, ∀ ind ∈ _parse_urlhaus_csv txt now,
      ind.confidence = some 80) ∧
    (∀ txt now : String, ∀ ind ∈ _parse_urlhaus_text txt now,
      ind.confidence = some 80) := by
  have heq := upsert_indicator_eq store { type := t, value := v, source := s }
    ht (by constructor <;> simp)
  refine ⟨?_, ?_, ?_, ?_, ?_⟩
  · rw [heq]
    split
    · exact ⟨_, rfl⟩
    · exact ⟨_, rfl⟩
  · intro hnone
    rw [heq, if_neg (by simp [hnone])]
    rfl
  · intro txt src now ind hmem
    rw [parse_spamhaus_eq_filterMap] at hmem
    obtain ⟨ln, -, heq'⟩ := List.mem_filterMap.mp hmem
    unfold spamhausLineSpec at heq'
    split at heq'
    · cases heq'; rfl
    · cases heq'
  · intro txt now ind hmem
    exact (urlhausRowToInd_fields _ now ind
      (parse_urlhaus_csv_mem txt now ind hmem).choose_spec).1
  · intro txt now ind hmem
    rw [parse_urlhaus_text_eq_filterMap] at hmem
    obtain ⟨ln, -, heq'⟩ := List.mem_filterMap.mp hmem
    unfold urlhausTextLineSpec at heq'
    split at heq'
    · cases heq'; rfl
    · cases heq'

/-- Witness for C10 at a concrete minimal dict and empty store. -/
theorem claim_C10_witness :
    validTypes.contains sampleMinimal.type = true ∧
    (∃ store2 : List Record,
      upsert_indicator [] sampleMinimal = .ok store2) ∧
    (List.any [] (keyMatches sampleMinimal.value sampleMinimal.source)
        = false →
      upsert_indicator [] sampleMinimal =
        .ok ([] ++
          [{ type := sampleMinimal.type, value := sampleMinimal.value,
             source := sampleMinimal.source, first_seen := none,
             last_seen := none, tags := "", confidence := 50,
             status := "active" }])) :=
  ⟨by decide,
    (claim_C10 sampleMinimal.type sampleMinimal.value sampleMinimal.source
      [] (by decide)).1,
    (claim_C10 sampleMinimal.type sampleMinimal.value sampleMinimal.source
      [] (by decide)).2.1⟩

/-! ## Lemmas and claim for uniqueness (C3) -/

/-- The merge clause preserves the (value, source) key of a record. -/
theorem keyMatches_mergeRecord (v s : String) (ind : IndDict) (r : Record) :
    keyMatches v s (mergeRecord ind r) = keyMatches v s r := rfl

/-- One successful upsert sets the multiplicity of the upserted key to 1
(given that the store holds each key at most once) and leaves every other
key's multiplicity unchanged. -/
theorem countP_upsert (store : List Record) (ind : IndDict)
    (store2 : List Record) (h : upsert_indicator store ind = .ok store2)
    (hinv : ∀ v s : String, store.countP (keyMatches v s) ≤ 1)
    (v s : String) :
    store2.countP (keyMatches v s) =
      if ind.value = v ∧ ind.source = s then 1
      else store.countP (keyMatches v s) := by
  rcases upsert_ok_cases store ind store2 h with ⟨hany, rfl⟩ | ⟨hany, rfl⟩
  · have hmap : (store.map fun r =>
        if keyMatches ind.value ind.source r then mergeRecord ind r
        else r).countP (keyMatches v s) =
        store.countP (keyMatches v s) := by
      rw [List.countP_map]
      refine List.countP_congr fun r _ => ?_
      by_cases hk : keyMatches ind.value ind.source r = true <;>
        simp [Function.comp, hk, keyMatches_mergeRecord]
    rw [hmap]
    split
    · next hps =>
      obtain ⟨r, hr, hkr⟩ := List.any_eq_true.mp hany
      have hpos : 0 < store.countP (keyMatches v s) :=
        List.countP_pos_iff.mpr ⟨r, hr, by rw [← hps.1, ← hps.2]; exact hkr⟩
      exact Nat.le_antisymm (hinv v s) hpos
    · rfl
  · by_cases hps : ind.value = v ∧ ind.source = s
    · have hzero : store.countP (keyMatches v s) = 0 := by
        rw [List.countP_eq_zero]
        intro r hr
        rw [← hps.1, ← hps.2]
        exact List.any_eq_false.mp hany r hr
      have htrue : keyMatches v s (insertRecord ind) = true := by
        simp [keyMatches, insertRecord, hps.1, hps.2]
      rw [List.countP_append, List.countP_singleton, hzero, htrue,
        if_pos hps]
      simp
    · have hfalse : keyMatches v s (insertRecord ind) = false := by
        rcases not_and_or.mp hps with h1 | h1 <;>
          simp [keyMatches, insertRecord, h1]
      rw [List.countP_append, List.countP_singleton, hfalse, if_neg hps]
      simp

/-- One successful upsert preserves the at-most-once invariant. -/
theorem countP_upsert_le (store : List Record) (ind : IndDict)
    (store2 : List Record) (h : upsert_indicator store ind = .ok store2)
    (hinv : ∀ v s : String, store.countP (keyMatches v s) ≤ 1)
    (v s : String) : store2.countP (keyMatches v s) ≤ 1 := by
  rw [countP_upsert store ind store2 h hinv v s]
  split
  · exact Nat.le_refl 1
  · exact hinv v s

/-- A successful run of upserts sets each upserted key's multiplicity to 1
and leaves every other key's multiplicity unchanged. -/
theorem countP_upsertAll (inds : List IndDict) :
    ∀ store store2 : List Record, upsertAll store inds = .ok store2 →
      (∀ v s : String, store.countP (keyMatches v s) ≤ 1) →
      ∀ v s : String, store2.countP (keyMatches v s) =
        if (v, s) ∈ inds.map (fun i => (i.value, i.source)) then 1
        else store.countP (keyMatches v s) := by
  induction inds with
  | nil =>
    intro store store2 h hinv v s
    cases h
    simp
  | cons ind rest ih =>
    intro store store2 h hinv v s
    unfold upsertAll at h
    cases hup : upsert_indicator store ind with
    | error e => rw [hup] at h; cases h
    | ok store1 =>
      rw [hup] at h
      have h2 := ih store1 store2 h
        (countP_upsert_le store ind store1 hup hinv) v s
      have h1 := countP_upsert store ind store1 hup hinv v s
      rw [h2, h1]
      simp only [List.map_cons, List.mem_cons]
      by_cases hmem : (v, s) ∈ rest.map fun i => (i.value, i.source)
      · simp [hmem]
      · by_cases hps : ind.value = v ∧ ind.source = s
        · have hpair : (v, s) = (ind.value, ind.source) := by
            rw [hps.1, hps.2]
          simp [hmem, hpair, hps]
        · have hpair : ¬ (v, s) = (ind.value, ind.source) := by
            intro hcn
            exact hps ⟨((Prod.mk.injEq v s ind.value ind.source).mp
              hcn).1.symm,
              ((Prod.mk.injEq v s ind.value ind.source).mp hcn).2.symm⟩
          simp [hmem, hpair, hps]

/-- C3: starting from the empty store, a successful sequence of upserts
leaves exactly one record per distinct upserted (value, source) pair, and
no record for any other pair — a second upsert of an already-present pair
never creates a duplicate. -/
theorem claim_C3 (inds : List IndDict) (store2 : List Record)
    (h : upsertAll [] inds = .ok store2) (v s : String) :
    store2.countP (keyMatches v s) =
      if (v, s) ∈ inds.map (fun i => (i.value, i.source)) then 1 else 0 := by
  have hfin := countP_upsertAll inds [] store2 h (by intro v s; simp) v s
  simpa using hfin

/-- Witness for C3: upserting the same pair twice stores it once. -/
theorem claim_C3_witness :
    upsertAll [] [sampleReobs, sampleReobs] =
      .ok [insertRecord sampleReobs] ∧
    (insertRecord sampleReobs :: []).countP
        (keyMatches "http://a/" "urlhaus") =
      (if ("http://a/", "urlhaus") ∈
          [sampleReobs, sampleReobs].map (fun i => (i.value, i.source))
        then 1 else 0) :=
  ⟨by rfl,
    claim_C3 [sampleReobs, sampleReobs] [insertRecord sampleReobs] (by rfl)
      "http://a/" "urlhaus"⟩

/-! ## Claim theorems: the parsers (C9, C8) -/

/-- C9: the CIDR drop-list parser emits exactly one indicator per line
that, after trimming, is non-empty, is not a `;` comment, and whose first
whitespace-delimited token contains a `/`; the indicator's value is that
token, with type `cidr`, tags `drop-list`, confidence 70, status `active`
and source the variant's tag; every other line is skipped (the parser is a
total function, so no line can raise). -/
theorem claim_C9 (text source_name now : String) :
    _parse_spamhaus_text text source_name now =
      (splitLines text).filterMap (spamhausLineSpec source_name now) ∧
    ∀ ln : String, spamhausLineSpec source_name now ln =
      (if strTrim ln ≠ "" ∧ ¬ strStartsWith (strTrim ln) ";" ∧
          strContains (firstToken (strTrim ln)) '/' then
        some { type := "cidr", value := firstToken (strTrim ln),
               source := source_name, first_seen := some now,
               last_seen := some now, tags := some "drop-list",
               confidence := some 70, status := some "active" }
      else none) :=
  ⟨parse_spamhaus_eq_filterMap text source_name now, fun _ => rfl⟩

/-- C8: a parsed tabular row's status is `inactive` exactly when the row's
liveness field (key `url_status`, else `status`, keys matched after
trimming and lowercasing) has a value that case-insensitively equals
`offline`; any other value — including an empty or absent one — gives
`active`. -/
theorem claim_C8 (row : List (String × String)) (now : String)
    (ind : IndDict) (h : urlhausRowToInd row now = some ind) :
    (ind.status = some "inactive" ↔
      strLower (livenessValue row) = "offline") ∧
    (strLower (livenessValue row) ≠ "offline" →
      ind.status = some "active") := by
  unfold urlhausRowToInd at h
  split at h
  · cases h
  · cases h
    unfold urlhausStatus livenessValue
    by_cases hoff : strLower (pyOr (lowGet (normalizeRow row) "url_status")
        (lowGet (normalizeRow row) "status")) = "offline"
    · rw [if_pos hoff]
      exact ⟨⟨fun _ => hoff, fun _ => rfl⟩, fun hno => absurd hoff hno⟩
    · rw [if_neg hoff]
      refine ⟨⟨fun hcn => ?_, fun hcn => absurd hcn hoff⟩, fun _ => rfl⟩
      exact absurd (Option.some.inj hcn) (by decide)

/-- Witness for C8: an uppercase `OFFLINE` in a case-varying `URL_Status`
column yields `inactive`. -/
theorem claim_C8_witness :
    urlhausRowToInd [("URL_Status", "OFFLINE"), ("url", "http://e/")] "T" =
      some { type := "url", value := "http://e/", source := "urlhaus",
             first_seen := some "T", last_seen := some "T",
             tags := some "", confidence := some 80,
             status := some "inactive" } ∧
    (({ type := "url", value := "http://e/", source := "urlhaus",
        first_seen := some "T", last_seen := some "T", tags := some "",
        confidence := some 80,
        status := some "inactive" } : IndDict).status = some "inactive" ↔
      strLower (livenessValue
        [("URL_Status", "OFFLINE"), ("url", "http://e/")]) =
        "offline") :=
  ⟨by rfl,
    (claim_C8 [("URL_Status", "OFFLINE"), ("url", "http://e/")] "T" _
      (by rfl)).1⟩

/-! ## Claim theorems: the URLhaus fetcher (C5, C6) -/

/-- C5: when the tabular endpoint's payload, trimmed on the left and
lowercased, begins with an HTML document marker, the fetcher fails with
the distinct format error (not a transport error) and does not request the
line-oriented fallback endpoint; in particular no parse result is
returned. -/
theorem claim_C5 (csvResp txtResp : Except String String)
    (now body : String) (hcsv : csvResp = .ok body)
    (hhtml : isHtmlPayload body = true) :
    fetch_urlhaus_recent csvResp txtResp now =
      (.error
        (.format "URLhaus returned HTML (possible block page)."), false) := by
  subst hcsv
  simp [fetch_urlhaus_recent, hhtml]

/-- Witness for C5: a block page is rejected without fallback. -/
theorem claim_C5_witness :
    Except.ok "  <HTML><body>denied</body>" =
      (.ok "  <HTML><body>denied</body>" : Except String String) ∧
    isHtmlPayload "  <HTML><body>denied</body>" = true ∧
    fetch_urlhaus_recent (.ok "  <HTML><body>denied</body>")
        (.ok "http://a/\n") "T" =
      (.error
        (.format "URLhaus returned HTML (possible block page)."), false) :=
  ⟨rfl, by decide,
    claim_C5 (.ok "  <HTML><body>denied</body>") (.ok "http://a/\n") "T"
      "  <HTML><body>denied</body>" rfl (by decide)⟩

/-- C6: on a non-HTML tabular payload, when the tabular parse yields zero
indicators the fetcher requests the line-oriented endpoint and returns the
line-oriented parser's result (or that endpoint's transport failure), and
when the tabular parse yields at least one indicator the fallback endpoint
is not requested and the tabular result is returned. -/
theorem claim_C6 (csvResp txtResp : Except String String)
    (now body : String) (hcsv : csvResp = .ok body)
    (hhtml : isHtmlPayload body = false) :
    (_parse_urlhaus_csv body now = [] →
      fetch_urlhaus_recent csvResp txtResp now =
        ((match txtResp with
          | .error e => .error (.transport e)
          | .ok body2 => .ok (_parse_urlhaus_text body2 now)), true)) ∧
    (_parse_urlhaus_csv body now ≠ [] →
      fetch_urlhaus_recent csvResp txtResp now =
        (.ok (_parse_urlhaus_csv body now), false)) := by
  subst hcsv
  constructor
  · intro hempty
    cases txtResp with
    | error e => simp [fetch_urlhaus_recent, hhtml, hempty]
    | ok b2 => simp [fetch_urlhaus_recent, hhtml, hempty]
  · intro hne
    have hemp : (_parse_urlhaus_csv body now).isEmpty = false := by
      simpa [List.isEmpty_iff] using hne
    simp [fetch_urlhaus_recent, hhtml, hemp]

/-- Witness for C6: a tabular payload with a header but zero data rows
triggers the line-oriented fallback, whose parse is returned. -/
theorem claim_C6_witness :
    Except.ok "# banner\nurl\n" =
      (.ok "# banner\nurl\n" : Except String String) ∧
    isHtmlPayload "# banner\nurl\n" = false ∧
    ((_parse_urlhaus_csv "# banner\nurl\n" "T" = [] →
      fetch_urlhaus_recent (.ok "# banner\nurl\n") (.ok "http://a/\n") "T" =
        ((match (.ok "http://a/\n" : Except String String) with
          | .error e => .error (.transport e)
          | .ok body2 => .ok (_parse_urlhaus_text body2 "T")), true)) ∧
     (_parse_urlhaus_csv "# banner\nurl\n" "T" ≠ [] →
      fetch_urlhaus_recent (.ok "# banner\nurl\n") (.ok "http://a/\n") "T" =
        (.ok (_parse_urlhaus_csv "# banner\nurl\n" "T"), false))) :=
  ⟨rfl, by decide,
    claim_C6 (.ok "# banner\nurl\n") (.ok "http://a/\n") "T"
      "# banner\nurl\n" rfl (by decide)⟩

/-! ## Lemmas about the ingestion jobs (C7, C4) -/

/-- Updating the freshly appended row hits exactly that row. -/
theorem listModify_append {α : Type} (l : List α) (r : α) (f : α → α) :
    listModify (l ++ [r]) l.length f = l ++ [f r] := by
  induction l with
  | nil => rfl
  | cons x xs ih => simp [listModify, ih]

/-- Starting the loop counter at `c` shifts the final count by `c` and
changes nothing else. -/
theorem ingestLoop_shift (inds : List IndDict) :
    ∀ (store : List Record) (c : Nat),
      ingestLoop store c inds =
        ((ingestLoop store 0 inds).1,
         c + (ingestLoop store 0 inds).2.1,
         (ingestLoop store 0 inds).2.2) := by
  induction inds with
  | nil => intro store c; simp [ingestLoop]
  | cons ind rest ih =>
    intro store c
    cases hup : upsert_indicator store ind with
    | error e => simp [ingestLoop, hup]
    | ok store2 =>
      simp only [ingestLoop, hup]
      rw [ih store2 (c + 1), ih store2 (0 + 1)]
      simp only [Prod.mk.injEq, and_true, true_and]
      omega

/-- The loop either upserts everything (count = length, no error), or
stops at the first failing indicator with the store reflecting exactly the
preceding successful upserts and the count equal to their number. -/
theorem ingestLoop_spec (inds : List IndDict) :
    ∀ (store s2 : List Record) (n : Nat) (err : Option String),
      ingestLoop store 0 inds = (s2, n, err) →
      (err = none ∧ n = inds.length ∧ upsertAll store inds = .ok s2) ∨
      (∃ pre bad rest e, err = some e ∧ inds = pre ++ bad :: rest ∧
        n = pre.length ∧ upsertAll store pre = .ok s2 ∧
        upsert_indicator s2 bad = .error e) := by
  induction inds with
  | nil =>
    intro store s2 n err h
    cases h
    left
    exact ⟨rfl, rfl, rfl⟩
  | cons ind rest ih =>
    intro store s2 n err h
    simp only [ingestLoop] at h
    cases hup : upsert_indicator store ind with
    | error e =>
      simp only [hup] at h
      cases h
      right
      exact ⟨[], ind, rest, e, rfl, rfl, rfl, rfl, hup⟩
    | ok store2 =>
      simp only [hup] at h
      rcases hrec : ingestLoop store2 0 rest with ⟨s', n', err'⟩
      rw [ingestLoop_shift rest store2 (0 + 1), hrec] at h
      cases h
      rcases ih store2 s' n' err' hrec with ⟨he, hn, hall⟩ |
        ⟨pre, bad, r2, e, he, heq, hn, hall, hbad⟩
      · left
        refine ⟨he, ?_, ?_⟩
        · rw [hn]; simp [Nat.add_comm]
        · simp [upsertAll, hup, hall]
      · right
        refine ⟨ind :: pre, bad, r2, e, he, by rw [heq]; rfl, ?_, ?_, hbad⟩
        · rw [hn]; simp [Nat.add_comm]
        · simp [upsertAll, hup, hall]

/-- Characterization of one ingestion job: it appends exactly one
finalized FeedRun row and applies the loop's store effect. -/
theorem run_feed_job_spec (source : String)
    (fetch : Except String (List IndDict)) (db : DB) :
    run_feed_job source fetch db =
      match fetch with
      | .error e =>
        { indicators := db.indicators,
          feed_runs := db.feed_runs ++ [⟨source, 0, "error", some e, true⟩] }
      | .ok inds =>
        { indicators := (ingestLoop db.indicators 0 inds).1,
          feed_runs := db.feed_runs ++
            [⟨source, (ingestLoop db.indicators 0 inds).2.1,
              (match (ingestLoop db.indicators 0 inds).2.2 with
                | none => "success"
                | some _ => "error"),
              (ingestLoop db.indicators 0 inds).2.2, true⟩] } := by
  cases fetch with
  | error e =>
    simp [run_feed_job, record_feed_run_start, record_feed_run_end,
      listModify_append]
  | ok inds =>
    rcases hrec : ingestLoop db.indicators 0 inds with ⟨s', n', err'⟩
    cases err' <;>
      simp [run_feed_job, record_feed_run_start, record_feed_run_end,
        hrec, listModify_append]

/-- C7: every run of an ingestion job appends exactly one finalized
FeedRun.  When the fetch fails the run is `error` with zero items and the
failure text, and the store is untouched.  When the fetch succeeds and all
upserts succeed the run is `success` with the total count and null error
text.  When an upsert fails the run is `error`, its count is the number of
indicators successfully upserted before the failure, the store reflects
exactly those, the failing indicator is not stored, and the error text is
the failure's message. -/
theorem claim_C7 (source : String) (fetch : Except String (List IndDict))
    (db : DB) :
    ∃ rec : FeedRunRec,
      (run_feed_job source fetch db).feed_runs = db.feed_runs ++ [rec] ∧
      rec.source = source ∧ rec.finished = true ∧
      ((∃ e, fetch = .error e ∧ rec.status = "error" ∧
          rec.error_text = some e ∧ rec.items_ingested = 0 ∧
          (run_feed_job source fetch db).indicators = db.indicators) ∨
       (∃ inds, fetch = .ok inds ∧ rec.status = "success" ∧
          rec.error_text = none ∧ rec.items_ingested = inds.length ∧
          upsertAll db.indicators inds =
            .ok (run_feed_job source fetch db).indicators) ∨
       (∃ inds pre bad rest e, fetch = .ok inds ∧
          inds = pre ++ bad :: rest ∧ rec.status = "error" ∧
          rec.error_text = some e ∧ rec.items_ingested = pre.length ∧
          upsertAll db.indicators pre =
            .ok (run_feed_job source fetch db).indicators ∧
          upsert_indicator (run_feed_job source fetch db).indicators bad =
            .error e)) := by
  rw [run_feed_job_spec]
  cases fetch with
  | error e =>
    exact ⟨⟨source, 0, "error", some e, true⟩, rfl, rfl, rfl,
      Or.inl ⟨e, rfl, rfl, rfl, rfl, rfl⟩⟩
  | ok inds =>
    rcases hrec : ingestLoop db.indicators 0 inds with ⟨s', n', err'⟩
    rcases ingestLoop_spec inds db.indicators s' n' err' hrec with
      ⟨he, hn, hall⟩ | ⟨pre, bad, r2, e, he, heq, hn, hall, hbad⟩
    · subst he
      subst hn
      refine ⟨⟨source, (ingestLoop db.indicators 0 inds).2.1, "success",
        none, true⟩, by simp [hrec], rfl, rfl,
        Or.inr (Or.inl ⟨inds, rfl, rfl, rfl, by simp [hrec], ?_⟩)⟩
      simpa [hrec] using hall
    · subst he
      subst hn
      refine ⟨⟨source, pre.length, "error", some e, true⟩,
        by simp [hrec], rfl, rfl,
        Or.inr (Or.inr ⟨inds, pre, bad, r2, e, rfl, heq, rfl, rfl, rfl,
          ?_, ?_⟩)⟩
      · simpa [hrec] using hall
      · simpa [hrec] using hbad

/-- Whether (and how) an upsert fails depends only on the indicator, never
on the store contents: the CHECK constraints are evaluated on the incoming
row alone. -/
theorem upsert_error_indep (store store2 : List Record) (ind : IndDict)
    (e : String) (h : upsert_indicator store ind = .error e) :
    upsert_indicator store2 ind = .error e := by
  unfold upsert_indicator at h ⊢
  split at h
  · rw [if_pos (by assumption)]
    exact h
  · split at h
    · rw [if_neg (by assumption), if_pos (by assumption)]
      exact h
    · split at h <;> cases h

/-- The count and error outcome of the ingestion loop do not depend on the
starting store. -/
theorem ingestLoop_snd_indep (inds : List IndDict) :
    ∀ store store2 : List Record,
      (ingestLoop store 0 inds).2 = (ingestLoop store2 0 inds).2 := by
  induction inds with
  | nil => intro store store2; rfl
  | cons ind rest ih =>
    intro store store2
    cases hup : upsert_indicator store ind with
    | error e =>
      have hup2 : upsert_indicator store2 ind = .error e :=
        upsert_error_indep store store2 ind e hup
      simp [ingestLoop, hup, hup2]
    | ok s1 =>
      cases hup2 : upsert_indicator store2 ind with
      | error e =>
        have : upsert_indicator store ind = .error e :=
          upsert_error_indep store2 store ind e hup2
        rw [this] at hup
        cases hup
      | ok s2 =>
        simp only [ingestLoop, hup, hup2]
        rw [ingestLoop_shift rest s1 (0 + 1),
          ingestLoop_shift rest s2 (0 + 1)]
        rw [ih s1 s2]

/-- The FeedRun row a job appends is a function of the source name and the
fetch outcome alone — not of the database it runs against. -/
theorem run_feed_job_feed_runs (source : String)
    (fetch : Except String (List IndDict)) :
    ∃ rec : FeedRunRec, rec.source = source ∧ rec.finished = true ∧
      (rec.status = "success" ∨ rec.status = "error") ∧
      ∀ db : DB,
        (run_feed_job source fetch db).feed_runs =
          db.feed_runs ++ [rec] := by
  cases fetch with
  | error e =>
    exact ⟨⟨source, 0, "error", some e, true⟩, rfl, rfl, Or.inr rfl,
      fun db => by rw [run_feed_job_spec]⟩
  | ok inds =>
    refine ⟨⟨source, (ingestLoop [] 0 inds).2.1,
      (match (ingestLoop [] 0 inds).2.2 with
        | none => "success"
        | some _ => "error"),
      (ingestLoop [] 0 inds).2.2, true⟩, rfl, rfl, ?_, ?_⟩
    · cases (ingestLoop [] 0 inds).2.2 <;> simp
    · intro db
      rw [run_feed_job_spec]
      have h2 := ingestLoop_snd_indep inds db.indicators []
      simp [h2]

/-- C4: the multi-family trigger runs both jobs to a terminal state.  Each
appends a finalized FeedRun with a terminal status, and each family's
FeedRun is exactly the one it would get running alone against the same
initial database — so a failure in the URLhaus family can never abort,
skip, or alter the Spamhaus family's run, and vice versa. -/
theorem claim_C4 (fetchU fetchS : Except String (List IndDict)) (db : DB) :
    ∃ recU recS : FeedRunRec,
      (run_all_feeds fetchU fetchS db).feed_runs =
        db.feed_runs ++ [recU, recS] ∧
      recU.source = "urlhaus" ∧ recU.finished = true ∧
      (recU.status = "success" ∨ recU.status = "error") ∧
      recS.source = "spamhaus" ∧ recS.finished = true ∧
      (recS.status = "success" ∨ recS.status = "error") ∧
      (run_urlhaus_job fetchU db).feed_runs = db.feed_runs ++ [recU] ∧
      (run_spamhaus_job fetchS db).feed_runs = db.feed_runs ++ [recS] := by
  obtain ⟨recU, hsU, hfU, hstU, hallU⟩ :=
    run_feed_job_feed_runs "urlhaus" fetchU
  obtain ⟨recS, hsS, hfS, hstS, hallS⟩ :=
    run_feed_job_feed_runs "spamhaus" fetchS
  refine ⟨recU, recS, ?_, hsU, hfU, hstU, hsS, hfS, hstS, hallU db,
    hallS db⟩
  show (run_feed_job "spamhaus" fetchS
    (run_feed_job "urlhaus" fetchU db)).feed_runs =
      db.feed_runs ++ [recU, recS]
  rw [hallS (run_feed_job "urlhaus" fetchU db), hallU db]
  simp
